import Mathlib

/-
Verification of the document-stream ingestion pipeline and run-indexing
query layer of `intake-bluesky-files`.

The development is a shallow embedding of the two source modules
`intake_bluesky_files/filehandlerplugin.py` and
`intake_bluesky_files/filescatalog.py`:

- Python dicts are modeled as association lists `List (String × α)` with
  first-match lookup; the dicts built here always have distinct keys, and
  dict construction from possibly-duplicated pairs goes through
  `dictOfPairs`, which mirrors last-write-wins dict semantics.
- Python values that can appear in handler metadata are modeled by the
  inductive `PyVal`, carrying exactly the classification facts that
  `isinstance` checks in `data_type` observe.
- `uuid`-generated document ids are modeled by a fresh-name counter that
  is threaded through the ingestion functions; `uid-<n>` plays the role of
  a fresh UUID string.  `time.time()` timestamps, which no claim touches,
  are modeled as `0`.
- Fallible Python code (raising) is modeled with `Except PyErr`.
-/

namespace IntakeBlueskyFiles

/-! ## Python value model

`PyVal` models the Python runtime values that reach `data_type` and the
metadata dictionaries.  `pyObject` models an instance of any other class:
its fields are the class name, the `str()` rendering of the instance
(arbitrary, since `__str__` is user defined; the memory address that the
default rendering contains is part of this opaque string), and whether the
instance is iterable (`isinstance(val, typing.Iterable)`). -/

inductive PyVal where
  | pyNone : PyVal
  | pyBool : Bool → PyVal
  | pyInt : Int → PyVal
  | pyFloat : PyVal
  | npFloating : PyVal
  | npInteger : Int → PyVal
  | pyStr : String → PyVal
  | pyBytes : String → PyVal
  | pyDict : PyVal
  | pyList : List PyVal → PyVal
  | pyTuple : List PyVal → PyVal
  | npNdarray : PyVal
  | pyObject : String → String → Bool → PyVal
deriving Repr

namespace PyVal

/-- `isinstance(val, typing.Iterable)`: str, bytes, dict, list, tuple and
ndarray are iterable; numbers, booleans and None are not; an arbitrary
object is iterable according to its own flag. -/
def isIterable : PyVal → Bool
  | pyStr _ => true
  | pyBytes _ => true
  | pyDict => true
  | pyList _ => true
  | pyTuple _ => true
  | npNdarray => true
  | pyObject _ _ it => it
  | _ => false

/-- `isinstance(val, (str, bytes, dict))` — the `bad_iterables` of
`data_type`. -/
def isBadIterable : PyVal → Bool
  | pyStr _ => true
  | pyBytes _ => true
  | pyDict => true
  | _ => false

/-- `isinstance(val, (float, np.floating))` — the `number` row of
`_type_map`. -/
def isFloatKind : PyVal → Bool
  | pyFloat => true
  | npFloating => true
  | _ => false

/-- `isinstance(val, (np.ndarray, list, tuple))` — the `array` row of
`_type_map`. -/
def isArrayKind : PyVal → Bool
  | npNdarray => true
  | pyList _ => true
  | pyTuple _ => true
  | _ => false

/-- `isinstance(val, (str,))` — the `string` row of `_type_map`. -/
def isStrKind : PyVal → Bool
  | pyStr _ => true
  | _ => false

/-- `isinstance(val, (int, np.integer))` — the `integer` row of
`_type_map`.  A Python `bool` is an instance of `int`. -/
def isIntKind : PyVal → Bool
  | pyInt _ => true
  | pyBool _ => true
  | npInteger _ => true
  | _ => false

/-- The `str()` rendering of a value, as interpolated by `f"{val}"` in the
error message of `data_type`.  Only values that actually reach that error
(None, bytes, dict, non-iterable objects) matter for the claims; for the
remaining constructors the rendering is schematic. -/
def toStr : PyVal → String
  | pyNone => "None"
  | pyBool true => "True"
  | pyBool false => "False"
  | pyInt n => toString n
  | pyFloat => "0.0"
  | npFloating => "0.0"
  | npInteger n => toString n
  | pyStr s => s
  | pyBytes s => "b\x27" ++ s ++ "\x27"
  | pyDict => "\x7b\x7d"
  | pyList _ => "[...]"
  | pyTuple _ => "(...)"
  | npNdarray => "array(...)"
  | pyObject _ shown _ => shown

/-- The name of the Python class of a value. -/
def typeName : PyVal → String
  | pyNone => "NoneType"
  | pyBool _ => "bool"
  | pyInt _ => "int"
  | pyFloat => "float"
  | npFloating => "numpy.float64"
  | npInteger _ => "numpy.int64"
  | pyStr _ => "str"
  | pyBytes _ => "bytes"
  | pyDict => "dict"
  | pyList _ => "list"
  | pyTuple _ => "tuple"
  | npNdarray => "numpy.ndarray"
  | pyObject t _ _ => t

/-- The rendering of `type(val)`, as interpolated by `f"{type(val)}"`. -/
def typeStr (v : PyVal) : String := "<class \x27" ++ v.typeName ++ "\x27>"

end PyVal

/-! ## Python errors -/

inductive PyErr where
  | valueError : String → PyErr
  | keyError : String → PyErr
  | indexError : String → PyErr
  | typeError : String → PyErr
  | notImplementedError : PyErr
deriving Repr, DecidableEq

/-! ## Substring search

`strContains s pat` decides whether `pat` occurs as a contiguous substring
of `s`; it formalises "the message names X". -/

def chStarts : List Char → List Char → Bool
  | [], _ => true
  | _ :: _, [] => false
  | a :: as, b :: bs => a == b && chStarts as bs

def chContains (pat : List Char) : List Char → Bool
  | [] => pat.isEmpty
  | c :: rest => chStarts pat (c :: rest) || chContains pat rest

def strContains (s pat : String) : Bool := chContains pat.data s.data

/-! ## `data_type` (filehandlerplugin.py lines 98-128)

`_type_map` is the insertion-ordered dict
number ↦ (float, np.floating), array ↦ (np.ndarray, list, tuple),
string ↦ (str,), integer ↦ (int, np.integer); `data_type` first short
circuits on non-text iterables and then walks `_type_map` in that order.
-/

/-- The constant tail of the `data_type` error message. -/
def dataTypeMsgTail : String :=
  ". Supported types include: int, float, str, and iterables such as list, tuple, np.ndarray, and so on."

/-- The full `ValueError` message raised by `data_type`. -/
def dataTypeErrMsg (v : PyVal) : String :=
  "Cannot determine the appropriate bluesky-friendly data type for value "
    ++ v.toStr ++ " of Python type " ++ v.typeStr ++ dataTypeMsgTail

/-- `data_type(val)` from filehandlerplugin.py: the JSON-friendly type name
of a metadata value, or a `ValueError` for unsupported values. -/
def data_type (val : PyVal) : Except PyErr String :=
  if val.isIterable && !val.isBadIterable then .ok "array"
  else if val.isFloatKind then .ok "number"
  else if val.isArrayKind then .ok "array"
  else if val.isStrKind then .ok "string"
  else if val.isIntKind then .ok "integer"
  else .error (.valueError (dataTypeErrMsg val))

/-- The classification rule as worded by the spec (§4.2 type inference
rule): `array` for non-text iterables, otherwise `number` for floating
values, `integer` for integral values, `string` for text values, and the
documented error for everything else. -/
def specClassify (val : PyVal) : Except PyErr String :=
  if val.isIterable && !val.isBadIterable then .ok "array"
  else if val.isFloatKind then .ok "number"
  else if val.isIntKind then .ok "integer"
  else if val.isStrKind then .ok "string"
  else .error (.valueError (dataTypeErrMsg val))

/-! ## Python dicts as association lists

`dictGet` is `d[k]`-style first-match lookup, `dictSet` is `d[k] = v`
(overwrite in place, or append a new binding at the end, matching the
insertion-order semantics of Python dicts), and `dictOfPairs` builds a
dict from a pair list with last-write-wins semantics. -/

def dictGet {α : Type} : List (String × α) → String → Option α
  | [], _ => none
  | (k', v) :: rest, k => if k' = k then some v else dictGet rest k

def dictSet {α : Type} (d : List (String × α)) (k : String) (v : α) :
    List (String × α) :=
  if (dictGet d k).isSome then
    d.map (fun kv => if kv.1 = k then (k, v) else kv)
  else d ++ [(k, v)]

def dictOfPairs {α : Type} (l : List (String × α)) : List (String × α) :=
  l.foldl (fun d kv => dictSet d kv.1 kv.2) []

/-! ## The frame pattern (filescatalog.py line 43)

`frame_pattern = r"(?P<base>^|\r?\n|.*_|.*?\.)(?P<frame>\d{1,}).*(?=\..*?)"`
applied with `re.match` (anchored at the start, backtracking, `.` matching
every character except a newline).  The model below implements exactly the
backtracking search of this one pattern:

- the `base` alternatives are tried left to right: the empty `^` match,
  `\r?\n`, then `.*_` (greedy, so the candidate split points — positions
  just after an `_` in the first line — are tried rightmost first), then
  `.*?\.` (lazy, so the split points just after a `.` are tried leftmost
  first);
- after the base, `\d{1,}` greedily takes the maximal digit run (it must
  be non-empty), and `.*(?=\..*?)` succeeds exactly when a `.` occurs at
  or after the end of the digit run and before the next newline.  Which
  digit count the engine settles on does not change the captures or
  success, because digits are neither dots nor newlines. -/

namespace FrameRegex

/-- The characters `.` can still traverse: everything up to the first
newline. -/
def lineChars (cs : List Char) : List Char := cs.takeWhile (fun c => c != '\n')

/-- Length of the maximal digit run at the start of `cs` (`\d{1,}` greedy). -/
def digitCount (cs : List Char) : Nat := (cs.takeWhile Char.isDigit).length

/-- Does `.*(?=\..*?)` succeed at `cs`: a `.` before the next newline? -/
def hasDotInLine (cs : List Char) : Bool := (lineChars cs).any (fun c => c == '.')

/-- Match `\d{1,}.*(?=\..*?)` at `cs`, returning the frame capture. -/
def frameAt (cs : List Char) : Option (List Char) :=
  let m := digitCount cs
  if m = 0 then none
  else if hasDotInLine (cs.drop m) then some (cs.take m)
  else none

/-- Try a base that ends at index `t` (inclusive), i.e. `base = cs[0:t+1]`
with the frame starting at `t+1`. -/
def tryBaseEndingAt (cs : List Char) (t : Nat) : Option (List Char × List Char) :=
  (frameAt (cs.drop (t + 1))).map (fun fr => (cs.take (t + 1), fr))

/-- Split points for the greedy `.*_` alternative: positions of `_` within
the first line, rightmost first. -/
def underscoreSplits (cs : List Char) : List Nat :=
  ((List.range (lineChars cs).length).filter
    (fun t => (lineChars cs).get? t == some '_')).reverse

/-- Split points for the lazy `.*?\.` alternative: positions of `.` within
the first line, leftmost first. -/
def dotSplits (cs : List Char) : List Nat :=
  (List.range (lineChars cs).length).filter
    (fun t => (lineChars cs).get? t == some '.')

/-- The `^` alternative: empty base. -/
def altCaret (cs : List Char) : Option (List Char × List Char) :=
  (frameAt cs).map (fun fr => (([] : List Char), fr))

/-- The `\r?\n` alternative (`\r?` greedy, so `\r\n` is preferred). -/
def altNewline (cs : List Char) : Option (List Char × List Char) :=
  match cs with
  | '\r' :: '\n' :: rest => (frameAt rest).map (fun fr => (['\r', '\n'], fr))
  | '\n' :: rest => (frameAt rest).map (fun fr => (['\n'], fr))
  | _ => none

/-- Try each split point in backtracking order. -/
def altSplits (cs : List Char) (splits : List Nat) : Option (List Char × List Char) :=
  splits.findSome? (tryBaseEndingAt cs)

/-- `re.match(frame_pattern, s)`: the `(base, frame)` captures of the
match the backtracking engine settles on, if any. -/
def matchFrame (cs : List Char) : Option (List Char × List Char) :=
  match altCaret cs with
  | some r => some r
  | none =>
    match altNewline cs with
    | some r => some r
    | none =>
      match altSplits cs (underscoreSplits cs) with
      | some r => some r
      | none => altSplits cs (dotSplits cs)

end FrameRegex

/-! ## `_parse_frame_num` and `_separate_runs` (filescatalog.py 43-62) -/

/-- `FilesCatalog._parse_frame_num`: the `(base, frame)` groups of the
match, or `(None, None)` when the pattern fails. -/
def parseFrameNum (path : String) : Option String × Option String :=
  match FrameRegex.matchFrame path.data with
  | some (b, f) => (some (String.mk b), some (String.mk f))
  | none => (none, none)

/-- The extracted base of a path — the grouping key of `_separate_runs`. -/
def pathBase (p : String) : Option String := (parseFrameNum p).1

/-- One step of `_separate_runs`: `runs[base].append(path)` when the key
exists, else `runs[base] = [path]` (new key appended last, as in a Python
dict). -/
def insertRun (runs : List (Option String × List String)) (b : Option String)
    (p : String) : List (Option String × List String) :=
  match runs with
  | [] => [(b, [p])]
  | (b', g) :: rest =>
      if b' = b then (b', g ++ [p]) :: rest else (b', g) :: insertRun rest b p

/-- The insertion-ordered dict built by `_separate_runs`. -/
def separateRunsAux (paths : List String) : List (Option String × List String) :=
  paths.foldl (fun runs p => insertRun runs (pathBase p) p) []

/-- `FilesCatalog._separate_runs`: `runs.values()`. -/
def separateRuns (paths : List String) : List (List String) :=
  (separateRunsAux paths).map Prod.snd

/-- First-match lookup in the run dict. -/
def runsGet : List (Option String × List String) → Option String →
    Option (List String)
  | [], _ => none
  | (b', g) :: rest, b => if b' = b then some g else runsGet rest b

/-- `combineOpt o l`: the group contents after appending the matches `l`
to an existing (or absent) group `o`. -/
def combineOpt (o : Option (List String)) (l : List String) :
    Option (List String) :=
  match o with
  | some g => some (g ++ l)
  | none => if l.isEmpty then none else some l

/-- Appending a new key with `addKey`, used to state the first-appearance
ordering of the groups. -/
def addKey (ks : List (Option String)) (b : Option String) :
    List (Option String) :=
  if b ∈ ks then ks else ks ++ [b]

/-- The list of bases in order of first appearance. -/
def firstAppearanceKeys (bs : List (Option String)) : List (Option String) :=
  bs.foldl addKey []

/-! ## Document model

The documents composed through `event_model.compose_run`; each structure
keeps the fields the source reads.  Composition-generated uids are drawn
from the fresh-name counter (`uidStr`), standing in for `uuid` strings;
`time.time()` fields, which nothing here reads, are omitted. -/

structure DataKey where
  dtype : String
  shape : List Nat
  source : String
  external : Option String := none

structure StartDoc where
  uid : String
  metadata : List (String × PyVal)

structure DescriptorDoc where
  uid : String
  run_start : String
  name : String
  data_keys : List (String × DataKey)
  object_keys : List (String × List String)

structure ResourceDoc where
  uid : String
  run_start : String
  spec : String
  root : String
  resource_path : String

structure DatumDoc where
  datum_id : String
  resource : String

structure EventDoc where
  uid : String
  descriptor : String
  data : List (String × PyVal)
  timestamps : List (String × Nat)
  filled : List (String × Bool)

structure StopDoc where
  uid : String
  run_start : String

inductive Doc where
  | start : StartDoc → Doc
  | descriptor : DescriptorDoc → Doc
  | resource : ResourceDoc → Doc
  | datum : DatumDoc → Doc
  | event : EventDoc → Doc
  | stop : StopDoc → Doc

/-- The document-kind tag that the generators pair with each document. -/
def kindName : Doc → String
  | .start _ => "start"
  | .descriptor _ => "descriptor"
  | .resource _ => "resource"
  | .datum _ => "datum"
  | .event _ => "event"
  | .stop _ => "stop"

/-! ## Handler and ingestor (filehandlerplugin.py 15-93)

A `FileHandlerPlugin` subclass is consumed through `name`,
`configuration_keys`, `metadata()` and the decoded array's `shape`; the
base `IngestorPlugin` reads `descriptor_keys` via `getattr` with default
`[]`. -/

structure Handler where
  name : String
  configuration_keys : List String
  metadataOf : String → List (String × PyVal)
  shapeOf : String → List Nat

/-- `handler(path).metadata()`, normalised to a dict (a Python dict never
holds duplicate keys). -/
def Handler.metadata (h : Handler) (path : String) : List (String × PyVal) :=
  dictOfPairs (h.metadataOf path)

structure Ingestor where
  handler : Handler
  descriptor_keys : List String := []

/-- The fresh uid supply standing in for `uuid` generation. -/
def uidStr (n : Nat) : String := "uid-" ++ toString n

/-- Python string slicing `s[1:]` (code-point level). -/
def strDrop1 (s : String) : String := String.mk (s.data.drop 1)

/-- `Path(p).stem`, with `resolve()` modeled as the identity (the test
paths are already absolute; no claim depends on the title value).  The
stem is the last path component without its final suffix. -/
def pathStem (p : String) : String :=
  let name :=
    match (p.splitOn "/").getLast? with
    | some s => s
    | none => p
  match name.splitOn "." with
  | [] => name
  | [_] => name
  | ["", _] => name
  | parts => String.intercalate "." parts.dropLast

/-- `IngestorPlugin.title`: the stem of the first path, wrapped in
`Series: …` for multi-path runs. -/
def titleOf (p0 : String) (paths : List String) : String :=
  if paths.length > 1 then "Series: " ++ pathStem p0 ++ "…" else pathStem p0

/-- `IngestorPlugin.getStartDoc` (plus `_setTitle`): project the first
path's metadata onto `descriptor_keys` (missing keys become `None`),
inject `sample_name`, and compose the run start.  `p0` stands for
`paths[0]`; `ingest` guards non-emptiness. -/
def getStartDoc (ing : Ingestor) (p0 : String) (paths : List String)
    (n : Nat) : StartDoc × Nat :=
  let md0 := ing.handler.metadata p0
  let projected := dictOfPairs (ing.descriptor_keys.map
    (fun k => (k, (dictGet md0 k).getD PyVal.pyNone)))
  let md := dictSet projected "sample_name" (PyVal.pyStr (titleOf p0 paths))
  ({ uid := uidStr n, metadata := md }, n + 1)

/-- The `data_keys` loop of `getDescriptorDocs`: one
`⟨dtype, shape := [], source := paths[0]⟩` entry per metadata key, where
`data_type` may raise. -/
def buildDataKeys (md : List (String × PyVal)) (p0 : String) :
    Except PyErr (List (String × DataKey)) :=
  md.mapM (fun kv => do
    let dt ← data_type kv.2
    pure (kv.1, ({ dtype := dt, shape := [], source := p0 } : DataKey)))

/-- `IngestorPlugin.getDescriptorDocs`: yields exactly one descriptor for
the stream `primary`, with the extra external `image` data key carrying
the first frame's shape.  The `configuration_keys` intersection the
source computes is dead code (bound to nothing) and is omitted. -/
def getDescriptorDocs (ing : Ingestor) (p0 : String) (run_start : String)
    (n : Nat) : Except PyErr (DescriptorDoc × Nat) := do
  let md := ing.handler.metadata p0
  let dks ← buildDataKeys md p0
  let shape := ing.handler.shapeOf p0
  let dks2 := dictSet dks "image"
    { dtype := "array", shape := shape, source := p0, external := some "FS:" }
  pure ({ uid := uidStr n, run_start := run_start, name := "primary",
          data_keys := dks2,
          object_keys := [("files", dks2.map Prod.fst)] }, n + 1)

/-- `IngestorPlugin.getDataDocs`: per path, compose a resource
(root `/`, `resource_path = path[1:]`), one datum under it (event_model
datum ids are `<resource uid>/<per-resource counter>`, here always `/0`),
then one event whose `image` field holds the datum id, with the image
marked unfilled and every timestamp `0`. -/
def getDataDocs (ing : Ingestor) (descriptor_uid run_start : String) :
    List String → Nat → List Doc × Nat
  | [], n => ([], n)
  | p :: rest, n =>
    let data := ing.handler.metadata p
    let resUid := uidStr n
    let res : ResourceDoc :=
      { uid := resUid, run_start := run_start, spec := ing.handler.name,
        root := "/", resource_path := strDrop1 p }
    let datumId := resUid ++ "/0"
    let dat : DatumDoc := { datum_id := datumId, resource := resUid }
    let data2 := dictSet data "image" (PyVal.pyStr datumId)
    let ev : EventDoc :=
      { uid := uidStr (n + 1), descriptor := descriptor_uid, data := data2,
        timestamps := data2.map (fun kv => (kv.1, 0)),
        filled := [("image", false)] }
    let tail := getDataDocs ing descriptor_uid run_start rest (n + 2)
    (Doc.resource res :: Doc.datum dat :: Doc.event ev :: tail.1, tail.2)

/-- `IngestorPlugin.ingest`: start, then (for the single descriptor
bundle) the descriptor followed by the per-path data docs, then stop.
`paths[0]` on an empty list raises `IndexError`; a `data_type` failure
aborts the stream. -/
def Ingestor.ingest (ing : Ingestor) (paths : List String) (n : Nat) :
    Except PyErr (List Doc × Nat) :=
  match paths with
  | [] => .error (.indexError "list index out of range")
  | p0 :: _ =>
    let sd := getStartDoc ing p0 paths n
    match getDescriptorDocs ing p0 sd.1.uid sd.2 with
    | .error e => .error e
    | .ok dres =>
      let body := getDataDocs ing dres.1.uid sd.1.uid paths dres.2
      .ok (Doc.start sd.1 :: Doc.descriptor dres.1 ::
            (body.1 ++ [Doc.stop { uid := uidStr body.2, run_start := sd.1.uid }]),
          body.2 + 1)

/-- The kind-tag sequence `resource, datum, event` repeated `n` times. -/
def tripleKinds : Nat → List String
  | 0 => []
  | k + 1 => "resource" :: "datum" :: "event" :: tripleKinds k

/-- Number of documents of a given kind in a stream. -/
def countKind (docs : List Doc) (k : String) : Nat :=
  ((docs.map kindName).filter (fun s => s == k)).length

/-- A concrete handler: empty metadata, fixed frame shape. -/
def sampleHandler : Handler :=
  { name := "TIF Series",
    configuration_keys := [],
    metadataOf := fun _ => [],
    shapeOf := fun _ => [1000, 1000] }

def sampleIngestor : Ingestor := { handler := sampleHandler }

/-- The stream `ingest` produces for two frames of one run. -/
def sampleDocs : List Doc :=
  match sampleIngestor.ingest ["a_1.tif", "a_2.tif"] 0 with
  | .ok res => res.1
  | .error _ => []

/-! ## Resource path facts (claim C9) -/

/-- Does the path begin with the separator `/`? -/
def startsWithSlash (p : String) : Bool :=
  match p.data with
  | c :: _ => c == '/'
  | [] => false

/-- The resource documents of a stream, in emission order. -/
def resourcesOf (docs : List Doc) : List ResourceDoc :=
  docs.filterMap (fun d => match d with | .resource r => some r | _ => none)

/-! ## FilesCatalog (filescatalog.py) -/

/-- `doc['uid']`: every document kind except datum carries `uid` (a datum
has `datum_id` instead, so the subscript would raise `KeyError`). -/
def docGetUid : Doc → Option String
  | .start d => some d.uid
  | .descriptor d => some d.uid
  | .resource d => some d.uid
  | .datum _ => none
  | .event d => some d.uid
  | .stop d => some d.uid

/-- An opaque MongoDB-style query dict, plus the `$and` conjunction that
`search` builds. -/
inductive Query where
  | dict : String → Query
  | conj : Query → Query → Query

structure FilesCatalog where
  handler : Ingestor
  runs : List (String × List Doc)
  run_starts : List (String × Doc)
  query : Option Query

/-- Ingest each group in order, threading the uid counter (uuid values
are globally fresh across runs). -/
def ingestAll (ing : Ingestor) : List (List String) → Nat →
    Except PyErr (List (List Doc) × Nat)
  | [], n => .ok ([], n)
  | g :: gs, n =>
    match ing.ingest g n with
    | .error e => .error e
    | .ok res =>
      match ingestAll ing gs res.2 with
      | .error e => .error e
      | .ok rest => .ok (res.1 :: rest.1, rest.2)

/-- Key every materialized run by `run[0][1]['uid']` (IndexError on an
empty run, KeyError if the head document has no uid); also keep the head
document itself, the value stored in `_run_starts`. -/
def keyRuns : List (List Doc) → Except PyErr (List (String × Doc × List Doc))
  | [] => .ok []
  | run :: rest =>
    match run.head? with
    | none => .error (.indexError "list index out of range")
    | some d =>
      match docGetUid d with
      | none => .error (.keyError "uid")
      | some uid =>
        match keyRuns rest with
        | .error e => .error e
        | .ok tail => .ok ((uid, d, run) :: tail)

/-- `FilesCatalog.__init__` / `_update_index`: group the file list with
`_separate_runs`, ingest every group eagerly, and key the runs and their
start documents by the start uid. -/
def buildCatalog (ing : Ingestor) (file_list : List String)
    (query : Option Query) (n : Nat) : Except PyErr (FilesCatalog × Nat) :=
  match ingestAll ing (separateRuns file_list) n with
  | .error e => .error e
  | .ok res =>
    match keyRuns res.1 with
    | .error e => .error e
    | .ok keyed =>
      .ok ({ handler := ing,
             runs := dictOfPairs (keyed.map (fun kv => (kv.1, kv.2.2))),
             run_starts := dictOfPairs (keyed.map (fun kv => (kv.1, kv.2.1))),
             query := query }, res.2)

/-- `self._runs[run_start_uid]`, raising `KeyError` on an unknown run. -/
def FilesCatalog.lookupRun (c : FilesCatalog) (uid : String) :
    Except PyErr (List Doc) :=
  match dictGet c.runs uid with
  | some run => .ok run
  | none => .error (.keyError uid)

/-- `FilesCatalog._get_run_stop`: the terminal document when it is a
stop, else `None`. -/
def FilesCatalog.get_run_stop (c : FilesCatalog) (uid : String) :
    Except PyErr (Option Doc) :=
  match c.lookupRun uid with
  | .error e => .error e
  | .ok run =>
    match run.getLast? with
    | none => .error (.indexError "list index out of range")
    | some d => if kindName d = "stop" then .ok (some d) else .ok none

/-- The descriptor documents of a run, in emission order. -/
def descriptorsOf (docs : List Doc) : List DescriptorDoc :=
  docs.filterMap (fun d => match d with | .descriptor dd => some dd | _ => none)

/-- `FilesCatalog._get_event_descriptors`. -/
def FilesCatalog.get_event_descriptors (c : FilesCatalog) (uid : String) :
    Except PyErr (List DescriptorDoc) :=
  match c.lookupRun uid with
  | .error e => .error e
  | .ok run => .ok (descriptorsOf run)

/-- The yield condition of the cursor loops:
`skip_counter >= skip and (limit is None or skip_counter < limit)`. -/
def cursorYield {α : Type} (a : α) (skip : Nat) (limit : Option Nat)
    (counter : Nat) : List α :=
  match limit with
  | none => if skip ≤ counter then [a] else []
  | some L => if skip ≤ counter ∧ counter < L then [a] else []

/-- The early-exit condition of the cursor loops, checked after the
increment: `limit is not None and skip_counter >= limit`. -/
def cursorStop (limit : Option Nat) (counter : Nat) : Bool :=
  match limit with
  | none => false
  | some L => counter + 1 ≥ L

/-- The paginated skip/limit loop shared (up to the match condition) by
`_get_event_cursor` and `_get_datum_cursor`: a match whose index among
the matches is `≥ skip` and `< limit` is yielded; the loop exits once the
index reaches `limit` (a `break` in the event loop, a `return` in the
datum loop — same yields). -/
def cursorLoop {α : Type} (sel : Doc → Option α) :
    List Doc → Nat → Option Nat → Nat → List α
  | [], _, _, _ => []
  | d :: rest, skip, limit, counter =>
    match sel d with
    | none => cursorLoop sel rest skip limit counter
    | some a =>
      if cursorStop limit counter then cursorYield a skip limit counter
      else cursorYield a skip limit counter
        ++ cursorLoop sel rest skip limit (counter + 1)

/-- The match condition of `_get_event_cursor`:
`name == 'event' and doc['descriptor'] in descriptor_set` (set membership
is membership in the given id collection). -/
def eventSel (descriptor_uids : List String) : Doc → Option EventDoc :=
  fun d =>
    match d with
    | .event e => if descriptor_uids.contains e.descriptor then some e else none
    | _ => none

/-- The match condition of `_get_datum_cursor`:
`name == 'datum' and doc['resource'] == resource_uid`. -/
def datumSel (resource_uid : String) : Doc → Option DatumDoc :=
  fun d =>
    match d with
    | .datum dt => if dt.resource = resource_uid then some dt else none
    | _ => none

/-- The full order-preserving filtered event sequence for a run. -/
def filteredEvents (run : List Doc) (descriptor_uids : List String) :
    List EventDoc :=
  run.filterMap (eventSel descriptor_uids)

/-- The full order-preserving filtered datum sequence for a run. -/
def filteredDatums (run : List Doc) (resource_uid : String) : List DatumDoc :=
  run.filterMap (datumSel resource_uid)

/-- `FilesCatalog._get_event_cursor`. -/
def FilesCatalog.get_event_cursor (c : FilesCatalog) (uid : String)
    (descriptor_uids : List String) (skip : Nat) (limit : Option Nat) :
    Except PyErr (List EventDoc) :=
  match c.lookupRun uid with
  | .error e => .error e
  | .ok run => .ok (cursorLoop (eventSel descriptor_uids) run skip limit 0)

/-- `FilesCatalog._get_datum_cursor`. -/
def FilesCatalog.get_datum_cursor (c : FilesCatalog) (uid : String)
    (resource_uid : String) (skip : Nat) (limit : Option Nat) :
    Except PyErr (List DatumDoc) :=
  match c.lookupRun uid with
  | .error e => .error e
  | .ok run => .ok (cursorLoop (datumSel resource_uid) run skip limit 0)

/-- The counting loop of `_get_event_count`. -/
def eventCountLoop (descriptor_uids : List String) : List Doc → Nat
  | [] => 0
  | d :: rest =>
    match d with
    | .event e =>
        (if descriptor_uids.contains e.descriptor then 1 else 0)
          + eventCountLoop descriptor_uids rest
    | _ => eventCountLoop descriptor_uids rest

/-- `FilesCatalog._get_event_count`. -/
def FilesCatalog.get_event_count (c : FilesCatalog) (uid : String)
    (descriptor_uids : List String) : Except PyErr Nat :=
  match c.lookupRun uid with
  | .error e => .error e
  | .ok run => .ok (eventCountLoop descriptor_uids run)

/-- The lookup loop of `_get_resource`: first resource with the uid, else
`ValueError`. -/
def getResourceLoop : List Doc → String → Except PyErr ResourceDoc
  | [], uid => .error (.valueError ("Resource uid " ++ uid ++ " not found."))
  | d :: rest, uid =>
    match d with
    | .resource r => if r.uid = uid then .ok r else getResourceLoop rest uid
    | _ => getResourceLoop rest uid

/-- `FilesCatalog._get_resource`. -/
def FilesCatalog.get_resource (c : FilesCatalog) (run_uid uid : String) :
    Except PyErr ResourceDoc :=
  match c.lookupRun run_uid with
  | .error e => .error e
  | .ok run => getResourceLoop run uid

/-- The lookup loop of `_get_datum`. -/
def getDatumLoop : List Doc → String → Except PyErr DatumDoc
  | [], datum_id => .error (.valueError ("Datum_id " ++ datum_id ++ " not found."))
  | d :: rest, datum_id =>
    match d with
    | .datum dt => if dt.datum_id = datum_id then .ok dt else getDatumLoop rest datum_id
    | _ => getDatumLoop rest datum_id

/-- `FilesCatalog._get_datum`. -/
def FilesCatalog.get_datum (c : FilesCatalog) (run_uid datum_id : String) :
    Except PyErr DatumDoc :=
  match c.lookupRun run_uid with
  | .error e => .error e
  | .ok run => getDatumLoop run datum_id

/-! ## Entries (`_make_entries_container`) -/

/-- Digit-run parsing for Python `int(str)` after the first digit: single
underscores are permitted between digits. -/
def digitsValGo (acc : Nat) : List Char → Option Nat
  | [] => some acc
  | '_' :: d :: rest =>
      if d.isDigit then digitsValGo (acc * 10 + (d.toNat - 48)) rest else none
  | d :: rest =>
      if d.isDigit then digitsValGo (acc * 10 + (d.toNat - 48)) rest else none

/-- A non-empty digit run (underscores between digits allowed). -/
def digitsVal : List Char → Option Nat
  | [] => none
  | d :: rest =>
      if d.isDigit then digitsValGo (d.toNat - 48) rest else none

/-- Python `int(str)`: optional surrounding whitespace, an optional sign,
then base-10 digits; `ValueError` (here `none`) otherwise. -/
def pyIntParse (s : String) : Option Int :=
  let cs := ((s.data.dropWhile Char.isWhitespace).reverse.dropWhile
    Char.isWhitespace).reverse
  match cs with
  | '-' :: rest => (digitsVal rest).map (fun n => -(n : Int))
  | '+' :: rest => (digitsVal rest).map (fun n => (n : Int))
  | rest => (digitsVal rest).map (fun n => (n : Int))

/-- The entry `_docs_to_entry` builds: named by the run uid, carrying the
start document and the (eagerly computed) run stop; the other entry
arguments are the catalog accessors themselves bound to the same uid,
represented by the catalog value those closures capture. -/
structure EntryModel where
  name : String
  start : Doc
  stop : Option Doc

/-- `Entries._docs_to_entry`. -/
def docsToEntry (c : FilesCatalog) (run_start_doc : Doc) :
    Except PyErr EntryModel :=
  match docGetUid run_start_doc with
  | none => .error (.keyError "uid")
  | some uid =>
    match c.get_run_stop uid with
    | .error e => .error e
    | .ok stop => .ok { name := uid, start := run_start_doc, stop := stop }

/-- `Entries.__getitem__`: keys that `int()` accepts raise
`NotImplementedError` before any lookup; any other key is looked up in
`_run_starts` (KeyError on a miss) and turned into an entry. -/
def entriesGetitem (c : FilesCatalog) (name : String) :
    Except PyErr EntryModel :=
  match pyIntParse name with
  | some _ => .error .notImplementedError
  | none =>
    match dictGet c.run_starts name with
    | none => .error (.keyError name)
    | some d => docsToEntry c d

/-! ## `FilesCatalog.search` (filescatalog.py 192-211) -/

/-- The keyword arguments `search` passes to `type(self)(...)`. -/
def searchCallKeywords : List String :=
  ["jsonl_filelist", "query", "name", "getenv", "getshell", "auth",
   "metadata", "storage_options"]

/-- The required positional parameters of `FilesCatalog.__init__`. -/
def initRequiredParams : List String := ["file_list", "handler"]

/-- `FilesCatalog.search`: compose the `$and` conjunction with any prior
query, then call the constructor of `type(self)`.  The call binds only
`searchCallKeywords`, so neither required positional parameter of
`__init__` is supplied and Python raises `TypeError` before any new
catalog exists; the success branch below is unreachable. -/
def FilesCatalog.search (c : FilesCatalog) (query : Query) :
    Except PyErr FilesCatalog :=
  let composed :=
    match c.query with
    | some q0 => Query.conj q0 query
    | none => query
  if initRequiredParams.all (fun p => searchCallKeywords.contains p) then
    .ok { c with query := some composed }
  else
    .error (.typeError
      "__init__() missing 2 required positional arguments: \x27file_list\x27 and \x27handler\x27")

/-- The catalog built from the two-frame sample run. -/
def sampleCatalog : FilesCatalog :=
  match buildCatalog sampleIngestor ["a_1.tif", "a_2.tif"] none 0 with
  | .ok res => res.1
  | .error _ =>
      { handler := sampleIngestor, runs := [], run_starts := [], query := none }

/-- The sample catalog's single run (keyed by its start uid). -/
def sampleRun : List Doc := (dictGet sampleCatalog.runs "uid-0").getD []

/-! ## Cursor pagination (claims C2, C6) -/

/-- The Python slice `l[skip : limit]` (`l[skip:]` when `limit` is
absent) — the pagination the cursor loops actually implement. -/
def pySlice {α : Type} (l : List α) (skip : Nat) : Option Nat → List α
  | none => l.drop skip
  | some L => (l.take L).drop skip

/-- The slice `l[skip : skip + limit]` stated by the spec: drop `skip`
matches, then yield at most `limit` further matches. -/
def specSlice {α : Type} (l : List α) (skip : Nat) : Option Nat → List α
  | none => l.drop skip
  | some L => (l.drop skip).take L

/-- The slice the loop produces when entered with counter `c`. -/
def sliceFrom {α : Type} (l : List α) (skip : Nat) (limit : Option Nat)
    (c : Nat) : List α :=
  match limit with
  | none => l.drop (skip - c)
  | some L => (l.take (L - c)).drop (skip - c)

/-- The event document ingested for the first sample frame. -/
def sampleEvent : EventDoc :=
  { uid := "uid-3", descriptor := "uid-1",
    data := [("image", PyVal.pyStr "uid-2/0")],
    timestamps := [("image", 0)],
    filled := [("image", false)] }

/-! ## `search` (claim C3) -/

/-- A copy of the sample catalog carrying a prior query scope. -/
def sampleCatalogWithQuery : FilesCatalog :=
  { sampleCatalog with query := some (Query.dict "sample scope") }

/-! ## Theorems -/

theorem chStarts_append (p t : List Char) : chStarts p (p ++ t) = true := by
  induction p with
  | nil => rfl
  | cons a as ih => simp [chStarts, ih]

theorem chContains_nil_pat (s : List Char) : chContains [] s = true := by
  cases s with
  | nil => rfl
  | cons c rest => simp [chContains, chStarts]

theorem chContains_self_append (p t : List Char) :
    chContains p (p ++ t) = true := by
  cases p with
  | nil => exact chContains_nil_pat t
  | cons a as =>
      show chContains (a :: as) (a :: (as ++ t)) = true
      simp only [chContains, Bool.or_eq_true]
      exact Or.inl (chStarts_append (a :: as) t)

theorem chContains_cons (p : List Char) (c : Char) (s : List Char)
    (h : chContains p s = true) : chContains p (c :: s) = true := by
  simp [chContains, h]

theorem chContains_append_left (x p s : List Char)
    (h : chContains p s = true) : chContains p (x ++ s) = true := by
  induction x with
  | nil => simpa using h
  | cons c cs ih => exact chContains_cons p c (cs ++ s) ih

theorem chContains_mid (x p y : List Char) :
    chContains p (x ++ (p ++ y)) = true :=
  chContains_append_left x p (p ++ y) (chContains_self_append p y)

theorem strData_append (a b : String) : (a ++ b).data = a.data ++ b.data := by
  cases a; cases b; rfl

/-- C7: `data_type` classifies a value as `array` exactly when it is
iterable and not a text/byte/mapping value; otherwise it returns `number`
for floating values, `integer` for integral values, `string` for text
values, and raises the type-inference error for every remaining value —
i.e. it agrees with the spec's classification rule on every value. -/
theorem claim_C7_data_type_classification (v : PyVal) :
    data_type v = specClassify v
      ∧ (data_type v = .ok "array" ↔ (v.isIterable && !v.isBadIterable) = true) := by
  cases v <;>
    exact ⟨rfl, by simp [data_type, PyVal.isIterable, PyVal.isBadIterable,
      PyVal.isFloatKind, PyVal.isArrayKind, PyVal.isStrKind,
      PyVal.isIntKind]⟩

theorem data_type_error_eq {v : PyVal} {e : PyErr}
    (h : data_type v = .error e) : e = .valueError (dataTypeErrMsg v) := by
  unfold data_type at h
  split_ifs at h <;> simp_all

/-- C8 (counterexample): for the unsupported value `pyObject "Foo" … false`
the raised message does not mention the kind names `integer` or `number`
at all (it lists the supported Python input types instead), so the error
does not name the set of supported kinds `integer, number, string, array`. -/
theorem claim_C8_counterexample :
    data_type (PyVal.pyObject "Foo" "<Foo object>" false)
        = .error (.valueError
            (dataTypeErrMsg (PyVal.pyObject "Foo" "<Foo object>" false)))
      ∧ strContains (dataTypeErrMsg (PyVal.pyObject "Foo" "<Foo object>" false))
          "integer" = false
      ∧ strContains (dataTypeErrMsg (PyVal.pyObject "Foo" "<Foo object>" false))
          "number" = false :=
  ⟨rfl, by decide, by decide⟩

/-- C8 (amended): whenever `data_type` is applied to a value matching none
of the supported classes, the raised `ValueError` message names the
offending value (its `str()` rendering), the value's native type
(`type(val)` rendering), and the supported Python value types — `int`,
`float`, `str`, and iterables such as `list`, `tuple`, `np.ndarray` —
rather than the kind names `integer, number, string, array`. -/
theorem claim_C8_error_names_value_type_and_supported_types
    (v : PyVal) (msg : String)
    (h : data_type v = .error (.valueError msg)) :
    strContains msg v.toStr = true
      ∧ strContains msg v.typeStr = true
      ∧ strContains msg "int" = true
      ∧ strContains msg "float" = true
      ∧ strContains msg "str" = true
      ∧ strContains msg "list" = true
      ∧ strContains msg "tuple" = true
      ∧ strContains msg "np.ndarray" = true := by
  have h2 := data_type_error_eq h
  injection h2 with hmsg
  subst hmsg
  have lift : ∀ pat : String, chContains pat.data dataTypeMsgTail.data = true →
      strContains (dataTypeErrMsg v) pat = true := by
    intro pat hp
    show chContains pat.data (dataTypeErrMsg v).data = true
    simp only [dataTypeErrMsg, strData_append, List.append_assoc]
    exact chContains_append_left _ _ _ (chContains_append_left _ _ _
      (chContains_append_left _ _ _ (chContains_append_left _ _ _ hp)))
  have hval : strContains (dataTypeErrMsg v) v.toStr = true := by
    show chContains (v.toStr).data (dataTypeErrMsg v).data = true
    simp only [dataTypeErrMsg, strData_append, List.append_assoc]
    exact chContains_append_left _ _ _ (chContains_self_append _ _)
  have htyp : strContains (dataTypeErrMsg v) v.typeStr = true := by
    show chContains (v.typeStr).data (dataTypeErrMsg v).data = true
    simp only [dataTypeErrMsg, strData_append, List.append_assoc]
    exact chContains_append_left _ _ _ (chContains_append_left _ _ _
      (chContains_append_left _ _ _ (chContains_self_append _ _)))
  exact ⟨hval, htyp, lift "int" (by decide), lift "float" (by decide),
    lift "str" (by decide), lift "list" (by decide), lift "tuple" (by decide),
    lift "np.ndarray" (by decide)⟩

/-- C8 (witness): the amended theorem applied to the concrete unsupported
value `dict()`. -/
theorem claim_C8_witness :
    strContains (dataTypeErrMsg PyVal.pyDict) PyVal.pyDict.toStr = true
      ∧ strContains (dataTypeErrMsg PyVal.pyDict) PyVal.pyDict.typeStr = true
      ∧ strContains (dataTypeErrMsg PyVal.pyDict) "int" = true
      ∧ strContains (dataTypeErrMsg PyVal.pyDict) "float" = true
      ∧ strContains (dataTypeErrMsg PyVal.pyDict) "str" = true
      ∧ strContains (dataTypeErrMsg PyVal.pyDict) "list" = true
      ∧ strContains (dataTypeErrMsg PyVal.pyDict) "tuple" = true
      ∧ strContains (dataTypeErrMsg PyVal.pyDict) "np.ndarray" = true :=
  claim_C8_error_names_value_type_and_supported_types PyVal.pyDict
    (dataTypeErrMsg PyVal.pyDict) rfl

theorem runsGet_insertRun (runs : List (Option String × List String))
    (b : Option String) (p : String) (b' : Option String) :
    runsGet (insertRun runs b p) b'
      = if b' = b then some (((runsGet runs b).getD []) ++ [p])
        else runsGet runs b' := by
  induction runs with
  | nil =>
      simp only [insertRun, runsGet]
      by_cases h : b = b'
      · rw [if_pos h, if_pos h.symm]
        simp
      · rw [if_neg h, if_neg (fun hh : b' = b => h hh.symm)]
  | cons hd rest ih =>
      obtain ⟨b0, g0⟩ := hd
      simp only [insertRun]
      by_cases h0 : b0 = b
      · rw [if_pos h0]
        simp only [runsGet]
        by_cases h1 : b0 = b'
        · rw [if_pos h1, if_pos (h1.symm.trans h0), if_pos h0]
          simp
        · rw [if_neg h1, if_neg (fun hh : b' = b => h1 (h0.trans hh.symm)),
            if_neg h1]
      · rw [if_neg h0]
        simp only [runsGet]
        by_cases h1 : b0 = b'
        · rw [if_pos h1, if_neg (fun hh : b' = b => h0 (h1.trans hh)),
            if_pos h1]
        · rw [if_neg h1, ih]
          by_cases h2 : b' = b
          · rw [if_pos h2, if_pos h2, if_neg h0]
          · rw [if_neg h2, if_neg h2, if_neg h1]

theorem keys_insertRun (runs : List (Option String × List String))
    (b : Option String) (p : String) :
    (insertRun runs b p).map Prod.fst
      = addKey (runs.map Prod.fst) b := by
  induction runs with
  | nil => simp [insertRun, addKey]
  | cons hd rest ih =>
      obtain ⟨b0, g0⟩ := hd
      by_cases h0 : b0 = b
      · subst h0; simp [insertRun, addKey]
      · simp only [insertRun, if_neg h0, List.map_cons, ih, addKey]
        by_cases h1 : b ∈ rest.map Prod.fst
        · simp [h1, Ne.symm h0]
        · simp [h1, Ne.symm h0]

theorem nodupKeys_insertRun (runs : List (Option String × List String))
    (b : Option String) (p : String)
    (h : (runs.map Prod.fst).Nodup) :
    ((insertRun runs b p).map Prod.fst).Nodup := by
  rw [keys_insertRun, addKey]
  by_cases hb : b ∈ runs.map Prod.fst
  · simpa [hb]
  · simp [hb, List.nodup_append, h]

theorem runsGet_sep_foldl (paths : List String) :
    ∀ (acc : List (Option String × List String)) (b : Option String),
      runsGet (paths.foldl (fun runs p => insertRun runs (pathBase p) p) acc) b
        = combineOpt (runsGet acc b)
            (paths.filter (fun p => pathBase p == b)) := by
  induction paths with
  | nil =>
      intro acc b
      cases h : runsGet acc b <;> simp [combineOpt, h]
  | cons p rest ih =>
      intro acc b
      simp only [List.foldl_cons, List.filter_cons]
      rw [ih, runsGet_insertRun]
      by_cases hb : b = pathBase p
      · rw [if_pos hb]
        have : (pathBase p == b) = true := by simp [hb]
        rw [this]
        subst hb
        cases h0 : runsGet acc (pathBase p) <;>
          simp [combineOpt, h0, List.append_assoc]
      · rw [if_neg hb]
        have hf : (pathBase p == b) = false :=
          beq_eq_false_iff_ne.mpr (fun hh => hb hh.symm)
        simp [hf]

theorem keys_sep_foldl (paths : List String) :
    ∀ (acc : List (Option String × List String)),
      ((paths.foldl (fun runs p => insertRun runs (pathBase p) p) acc).map
          Prod.fst)
        = (paths.map pathBase).foldl addKey (acc.map Prod.fst) := by
  induction paths with
  | nil => intro acc; rfl
  | cons p rest ih =>
      intro acc
      simp only [List.foldl_cons, List.map_cons]
      rw [ih, keys_insertRun]

theorem nodupKeys_sep_foldl (paths : List String) :
    ∀ (acc : List (Option String × List String)),
      (acc.map Prod.fst).Nodup →
      ((paths.foldl (fun runs p => insertRun runs (pathBase p) p) acc).map
          Prod.fst).Nodup := by
  induction paths with
  | nil => intro acc h; exact h
  | cons p rest ih =>
      intro acc h
      exact ih _ (nodupKeys_insertRun acc (pathBase p) p h)

theorem runsGet_eq_of_mem :
    ∀ (runs : List (Option String × List String)) (b : Option String)
      (g : List String),
      (runs.map Prod.fst).Nodup → (b, g) ∈ runs → runsGet runs b = some g := by
  intro runs
  induction runs with
  | nil => intro b g _ h; cases h
  | cons hd rest ih =>
      obtain ⟨b0, g0⟩ := hd
      intro b g hnd hmem
      simp only [List.map_cons, List.nodup_cons] at hnd
      rcases List.mem_cons.mp hmem with heq | hrest
      · injection heq with h1 h2
        subst h1; subst h2
        simp [runsGet]
      · have hb : b0 ≠ b := by
          intro hc
          subst hc
          exact hnd.1 (List.mem_map_of_mem Prod.fst hrest)
        rw [runsGet, if_neg hb]
        exact ih b g hnd.2 hrest

theorem mem_of_runsGet :
    ∀ (runs : List (Option String × List String)) (b : Option String)
      (g : List String),
      runsGet runs b = some g → (b, g) ∈ runs := by
  intro runs
  induction runs with
  | nil => intro b g h; cases h
  | cons hd rest ih =>
      obtain ⟨b0, g0⟩ := hd
      intro b g h
      rw [runsGet] at h
      by_cases h0 : b0 = b
      · rw [if_pos h0] at h
        injection h with h1
        subst h0; subst h1
        exact List.mem_cons_self _ _
      · rw [if_neg h0] at h
        exact List.mem_cons_of_mem _ (ih b g h)

theorem nodupKeys_separateRunsAux (paths : List String) :
    ((separateRunsAux paths).map Prod.fst).Nodup :=
  nodupKeys_sep_foldl paths [] (by simp)

theorem runsGet_separateRunsAux (paths : List String) (b : Option String) :
    runsGet (separateRunsAux paths) b
      = combineOpt none (paths.filter (fun p => pathBase p == b)) :=
  runsGet_sep_foldl paths [] b

/-- C4: `_separate_runs` places two paths in the same group exactly when
their extracted bases are identical; the groups appear in order of first
appearance of their base; each group lists its paths in input order (the
group for base `b` is precisely the input-order filter of the paths whose
base is `b`, never re-sorted by frame number); every path on which the
frame pattern fails (base `none`) lands in the single group keyed by the
null base; and `_separate_runs` returns exactly the groups (the dict's
values). -/
theorem claim_C4_separate_runs_grouping (paths : List String) :
    ((separateRunsAux paths).map Prod.fst
        = firstAppearanceKeys (paths.map pathBase))
    ∧ (∀ b g, (b, g) ∈ separateRunsAux paths →
        g = paths.filter (fun p => pathBase p == b))
    ∧ (∀ p q, p ∈ paths → q ∈ paths →
        ((∃ b g, (b, g) ∈ separateRunsAux paths ∧ p ∈ g ∧ q ∈ g)
          ↔ pathBase p = pathBase q))
    ∧ (∀ p, p ∈ paths → pathBase p = none →
        ∃ g, (none, g) ∈ separateRunsAux paths ∧ p ∈ g)
    ∧ separateRuns paths = (separateRunsAux paths).map Prod.snd := by
  have hgroup : ∀ b g, (b, g) ∈ separateRunsAux paths →
      g = paths.filter (fun p => pathBase p == b) := by
    intro b g hmem
    have h1 := runsGet_eq_of_mem _ b g (nodupKeys_separateRunsAux paths) hmem
    rw [runsGet_separateRunsAux] at h1
    unfold combineOpt at h1
    split_ifs at h1 with h2 <;> cases h1 <;> rfl
  have hfull : ∀ p, p ∈ paths →
      ∃ g, (pathBase p, g) ∈ separateRunsAux paths ∧ p ∈ g := by
    intro p hp
    have hpf : p ∈ paths.filter (fun q => pathBase q == pathBase p) :=
      List.mem_filter.mpr ⟨hp, by simp⟩
    have hne : (paths.filter (fun q => pathBase q == pathBase p)).isEmpty = false := by
      cases hf : paths.filter (fun q => pathBase q == pathBase p) with
      | nil => rw [hf] at hpf; cases hpf
      | cons a l => simp
    have h1 : runsGet (separateRunsAux paths) (pathBase p)
        = some (paths.filter (fun q => pathBase q == pathBase p)) := by
      rw [runsGet_separateRunsAux]
      unfold combineOpt
      rw [if_neg (by simp [hne])]
    exact ⟨_, mem_of_runsGet _ _ _ h1, hpf⟩
  refine ⟨keys_sep_foldl paths [], hgroup, ?_, ?_, rfl⟩
  · intro p q hp hq
    constructor
    · rintro ⟨b, g, hmem, hpg, hqg⟩
      have hg := hgroup b g hmem
      subst hg
      have h1 := (List.mem_filter.mp hpg).2
      have h2 := (List.mem_filter.mp hqg).2
      simp only [beq_iff_eq] at h1 h2
      rw [h1, h2]
    · intro heq
      obtain ⟨g, hmem, hpg⟩ := hfull p hp
      refine ⟨pathBase p, g, hmem, hpg, ?_⟩
      have hg := hgroup _ g hmem
      subst hg
      exact List.mem_filter.mpr ⟨hq, by simp [heq]⟩
  · intro p hp hnone
    obtain ⟨g, hmem, hpg⟩ := hfull p hp
    rw [hnone] at hmem
    exact ⟨g, hmem, hpg⟩

/-- C4 (witness): the grouping theorem evaluated on a concrete path list
with two matching paths sharing a base and one unmatched path. -/
theorem claim_C4_witness :
    ["a_1.tif", "a_2.tif"]
      = (["a_1.tif", "a_2.tif", "noframe.tif"].filter
          (fun p => pathBase p == some "a_")) :=
  (claim_C4_separate_runs_grouping ["a_1.tif", "a_2.tif", "noframe.tif"]).2.1
    (some "a_") ["a_1.tif", "a_2.tif"]
    (@List.get?_mem _ _ 0 _ (by rfl))

theorem getDataDocs_kinds (ing : Ingestor) (du ru : String) :
    ∀ (paths : List String) (n : Nat),
      ((getDataDocs ing du ru paths n).1).map kindName
        = tripleKinds paths.length := by
  intro paths
  induction paths with
  | nil => intro n; rfl
  | cons p rest ih =>
      intro n
      simp only [getDataDocs, List.map_cons, kindName, List.length_cons,
        tripleKinds]
      rw [ih]

theorem tripleKinds_length (n : Nat) : (tripleKinds n).length = 3 * n := by
  induction n with
  | zero => rfl
  | succ m ih => simp [tripleKinds, ih]; omega

theorem tripleKinds_filter_len (k : String) (n : Nat) :
    ((tripleKinds n).filter (fun s => s == k)).length
      = n * ((["resource", "datum", "event"].filter (fun s => s == k)).length) := by
  induction n with
  | zero => simp [tripleKinds]
  | succ m ih =>
      have hsplit : tripleKinds (m + 1)
          = ["resource", "datum", "event"] ++ tripleKinds m := rfl
      rw [hsplit, List.filter_append, List.length_append, ih, Nat.succ_mul]
      omega

/-- C1: for every handler and every non-empty list of `N` paths, each
document stream that `ingest()` produces is, in order, one `start`, one
`descriptor`, the triple `resource`, `datum`, `event` once per path in
input order, and one final `stop` — `3N + 3` documents, with exactly
1 start, 1 descriptor, N resources, N datums, N events, 1 stop. -/
theorem claim_C1_ingest_stream_shape (ing : Ingestor) (paths : List String)
    (n0 : Nat) (docs : List Doc) (n1 : Nat)
    (hne : paths ≠ [])
    (h : ing.ingest paths n0 = .ok (docs, n1)) :
    docs.map kindName
        = "start" :: "descriptor" :: (tripleKinds paths.length ++ ["stop"])
      ∧ docs.length = 3 * paths.length + 3
      ∧ countKind docs "start" = 1
      ∧ countKind docs "descriptor" = 1
      ∧ countKind docs "resource" = paths.length
      ∧ countKind docs "datum" = paths.length
      ∧ countKind docs "event" = paths.length
      ∧ countKind docs "stop" = 1 := by
  cases paths with
  | nil => exact absurd rfl hne
  | cons p0 rest =>
      simp only [Ingestor.ingest] at h
      cases hdd : getDescriptorDocs ing p0
          ((getStartDoc ing p0 (p0 :: rest) n0).1.uid)
          ((getStartDoc ing p0 (p0 :: rest) n0).2) with
      | error e => rw [hdd] at h; cases h
      | ok dres =>
          rw [hdd] at h
          injection h with h1
          injection h1 with hdocs hn
          subst hdocs
          have hmap : (Doc.start (getStartDoc ing p0 (p0 :: rest) n0).1 ::
                Doc.descriptor dres.1 ::
                ((getDataDocs ing dres.1.uid
                    (getStartDoc ing p0 (p0 :: rest) n0).1.uid (p0 :: rest)
                    dres.2).1
                  ++ [Doc.stop
                        { uid := uidStr (getDataDocs ing dres.1.uid
                            (getStartDoc ing p0 (p0 :: rest) n0).1.uid
                            (p0 :: rest) dres.2).2,
                          run_start :=
                            (getStartDoc ing p0 (p0 :: rest) n0).1.uid }])).map
                  kindName
              = "start" :: "descriptor"
                  :: (tripleKinds (p0 :: rest).length ++ ["stop"]) := by
            simp only [List.map_cons, List.map_append, kindName,
              getDataDocs_kinds, List.map_nil]
          refine ⟨hmap, ?_, ?_, ?_, ?_, ?_, ?_, ?_⟩ <;>
            · first
              | (have hlen := congrArg List.length hmap
                 simp only [List.length_map, List.length_cons,
                   List.length_append, tripleKinds_length,
                   List.length_nil] at hlen ⊢
                 omega)
              | (unfold countKind
                 rw [hmap]
                 simp only [List.filter_cons, List.filter_append,
                   List.length_cons]
                 simp [tripleKinds_filter_len, List.length_cons]
                 try omega)

/-- C1 (witness): the stream-shape theorem evaluated on a concrete
two-path run. -/
theorem claim_C1_witness :
    sampleDocs.map kindName
      = "start" :: "descriptor" :: (tripleKinds 2 ++ ["stop"]) :=
  (claim_C1_ingest_stream_shape sampleIngestor ["a_1.tif", "a_2.tif"] 0
    sampleDocs 7 (List.cons_ne_nil _ _) rfl).1

theorem strExt {a b : String} (h : a.data = b.data) : a = b := by
  cases a; cases b; cases h; rfl

theorem slash_append_drop1 (p : String) :
    ("/" ++ strDrop1 p = p) ↔ startsWithSlash p = true := by
  have hslash : ("/" : String).data = ['/'] := rfl
  obtain ⟨cs⟩ := p
  cases cs with
  | nil =>
      constructor
      · intro h
        have hd := congrArg String.data h
        rw [strData_append, hslash] at hd
        simp [strDrop1] at hd
      · intro h
        simp [startsWithSlash] at h
  | cons c rest =>
      constructor
      · intro h
        have hd := congrArg String.data h
        rw [strData_append, hslash] at hd
        simp only [strDrop1, List.drop_succ_cons, List.drop_zero,
          List.singleton_append, List.cons.injEq] at hd
        simp [startsWithSlash, hd.1.symm]
      · intro h
        simp only [startsWithSlash, beq_iff_eq] at h
        subst h
        apply strExt
        rw [strData_append, hslash]
        simp [strDrop1]

theorem getDataDocs_resources (ing : Ingestor) (du ru : String) :
    ∀ (paths : List String) (n : Nat),
      List.Forall₂ (fun (p : String) (r : ResourceDoc) =>
          r.root = "/" ∧ r.resource_path = strDrop1 p
            ∧ ((r.root ++ r.resource_path = p) ↔ startsWithSlash p = true))
        paths (resourcesOf (getDataDocs ing du ru paths n).1) := by
  intro paths
  induction paths with
  | nil =>
      intro n
      exact List.Forall₂.nil
  | cons p rest ih =>
      intro n
      simp only [getDataDocs, resourcesOf, List.filterMap_cons]
      exact List.Forall₂.cons ⟨rfl, rfl, slash_append_drop1 p⟩ (ih (n + 2))

/-- C9: each ingested path `p` yields a resource with root `/` and
`resource_path` equal to `p` with exactly its first character removed
(whether or not `p` starts with a separator), and joining root and
resource path reconstructs `p` exactly when `p` starts with `/`. -/
theorem claim_C9_resource_root_and_relative_path (ing : Ingestor)
    (paths : List String) (n0 : Nat) (docs : List Doc) (n1 : Nat)
    (h : ing.ingest paths n0 = .ok (docs, n1)) :
    List.Forall₂ (fun (p : String) (r : ResourceDoc) =>
        r.root = "/" ∧ r.resource_path = strDrop1 p
          ∧ ((r.root ++ r.resource_path = p) ↔ startsWithSlash p = true))
      paths (resourcesOf docs) := by
  cases paths with
  | nil => cases h
  | cons p0 rest =>
      simp only [Ingestor.ingest] at h
      cases hdd : getDescriptorDocs ing p0
          ((getStartDoc ing p0 (p0 :: rest) n0).1.uid)
          ((getStartDoc ing p0 (p0 :: rest) n0).2) with
      | error e => rw [hdd] at h; cases h
      | ok dres =>
          rw [hdd] at h
          injection h with h1
          injection h1 with hdocs hn
          subst hdocs
          have hro : resourcesOf (Doc.start (getStartDoc ing p0 (p0 :: rest) n0).1 ::
              Doc.descriptor dres.1 ::
              ((getDataDocs ing dres.1.uid
                  (getStartDoc ing p0 (p0 :: rest) n0).1.uid (p0 :: rest)
                  dres.2).1
                ++ [Doc.stop
                      { uid := uidStr (getDataDocs ing dres.1.uid
                          (getStartDoc ing p0 (p0 :: rest) n0).1.uid
                          (p0 :: rest) dres.2).2,
                        run_start :=
                          (getStartDoc ing p0 (p0 :: rest) n0).1.uid }]))
              = resourcesOf (getDataDocs ing dres.1.uid
                  (getStartDoc ing p0 (p0 :: rest) n0).1.uid (p0 :: rest)
                  dres.2).1 := by
            simp [resourcesOf, List.filterMap_append]
          rw [hro]
          exact getDataDocs_resources ing dres.1.uid
            (getStartDoc ing p0 (p0 :: rest) n0).1.uid (p0 :: rest) dres.2

/-- C9 (witness): the resource-path theorem evaluated on the concrete
two-path run. -/
theorem claim_C9_witness :
    List.Forall₂ (fun (p : String) (r : ResourceDoc) =>
        r.root = "/" ∧ r.resource_path = strDrop1 p
          ∧ ((r.root ++ r.resource_path = p) ↔ startsWithSlash p = true))
      ["a_1.tif", "a_2.tif"] (resourcesOf sampleDocs) :=
  claim_C9_resource_root_and_relative_path sampleIngestor
    ["a_1.tif", "a_2.tif"] 0 sampleDocs 7 rfl

theorem cursorLoop_eq_sliceFrom {α : Type} (sel : Doc → Option α) :
    ∀ (docs : List Doc) (skip : Nat) (limit : Option Nat) (c : Nat),
      cursorLoop sel docs skip limit c
        = sliceFrom (docs.filterMap sel) skip limit c := by
  intro docs
  induction docs with
  | nil =>
      intro skip limit c
      cases limit <;> simp [cursorLoop, sliceFrom]
  | cons d rest ih =>
      intro skip limit c
      cases hsel : sel d with
      | none =>
          simp only [cursorLoop, hsel, List.filterMap_cons]
          exact ih skip limit c
      | some a =>
          simp only [cursorLoop, hsel, List.filterMap_cons]
          cases limit with
          | none =>
              rw [ih]
              simp only [sliceFrom, cursorStop, cursorYield,
                Bool.false_eq_true, if_false]
              by_cases hc : skip ≤ c
              · have h0 : skip - c = 0 := Nat.sub_eq_zero_of_le hc
                have h1 : skip - (c + 1) = 0 := by omega
                simp [hc, h0, h1]
              · have h2 : skip - c = (skip - (c + 1)) + 1 := by omega
                simp [hc, h2]
          | some L =>
              simp only [cursorStop, cursorYield, sliceFrom]
              by_cases hstop : c + 1 ≥ L
              · rw [if_pos (by simpa using hstop)]
                by_cases hcL : c < L
                · have hL : L - c = 1 := by omega
                  rw [hL]
                  by_cases hc : skip ≤ c
                  · have h0 : skip - c = 0 := Nat.sub_eq_zero_of_le hc
                    simp [hc, hcL, h0]
                  · have h2 : 1 ≤ skip - c := by omega
                    simp only [List.take_succ_cons, List.take_zero]
                    rw [if_neg (fun hh => hc hh.1)]
                    rw [List.drop_eq_nil_of_le (by simpa using h2)]
                · have hL : L - c = 0 := by omega
                  rw [hL]
                  simp [hcL, List.take_zero]
              · rw [if_neg (by simpa using hstop), ih]
                simp only [sliceFrom]
                have hcL : c < L := by omega
                have htake : L - c = (L - (c + 1)) + 1 := by omega
                rw [htake, List.take_succ_cons]
                by_cases hc : skip ≤ c
                · have h0 : skip - c = 0 := Nat.sub_eq_zero_of_le hc
                  have h1 : skip - (c + 1) = 0 := by omega
                  simp [hc, hcL, h0, h1]
                · have h2 : skip - c = (skip - (c + 1)) + 1 := by omega
                  rw [h2, List.drop_succ_cons]
                  rw [if_neg (fun hh => hc hh.1)]
                  simp

theorem cursorLoop_eq_pySlice {α : Type} (sel : Doc → Option α)
    (docs : List Doc) (skip : Nat) (limit : Option Nat) :
    cursorLoop sel docs skip limit 0
      = pySlice (docs.filterMap sel) skip limit := by
  rw [cursorLoop_eq_sliceFrom]
  cases limit <;> simp [sliceFrom, pySlice]

/-- C2 (counterexample): on a concrete two-event run, the event cursor
with `skip = 1`, `limit = 1` yields nothing, while the claimed
`[1 : 1+1]` slice of the filtered event sequence has one element — so the
cursor output is not the `[s : s+l]` slice. -/
theorem claim_C2_counterexample :
    sampleCatalog.get_event_cursor "uid-0" ["uid-1"] 1 (some 1) = .ok []
      ∧ (specSlice (filteredEvents sampleRun ["uid-1"]) 1 (some 1)).length = 1 :=
  ⟨rfl, rfl⟩

/-- C2 (amended): for every run in the index, the event cursor yields the
Python slice `[skip : limit]` of the full order-preserving filtered event
sequence — the matches whose index is `≥ skip` and `< limit`, with the
`[skip:]` suffix when `limit` is absent (not `[skip : skip + limit]`) —
and the datum cursor satisfies the same contract over the run's datums
with the given resource. -/
theorem claim_C2_cursor_python_slice (c : FilesCatalog) (uid : String)
    (run : List Doc) (descriptor_uids : List String) (resource_uid : String)
    (skip : Nat) (limit : Option Nat)
    (h : dictGet c.runs uid = some run) :
    c.get_event_cursor uid descriptor_uids skip limit
        = .ok (pySlice (filteredEvents run descriptor_uids) skip limit)
      ∧ c.get_datum_cursor uid resource_uid skip limit
        = .ok (pySlice (filteredDatums run resource_uid) skip limit) := by
  unfold FilesCatalog.get_event_cursor FilesCatalog.get_datum_cursor
    FilesCatalog.lookupRun
  rw [h]
  exact ⟨congrArg Except.ok (cursorLoop_eq_pySlice _ run skip limit),
    congrArg Except.ok (cursorLoop_eq_pySlice _ run skip limit)⟩

/-- C2 (witness): the amended slice contract evaluated on the concrete
catalog at `skip = 1`, `limit = 1`. -/
theorem claim_C2_witness :
    sampleCatalog.get_event_cursor "uid-0" ["uid-1"] 1 (some 1)
        = .ok (pySlice (filteredEvents sampleRun ["uid-1"]) 1 (some 1))
      ∧ sampleCatalog.get_datum_cursor "uid-0" "uid-2" 1 (some 1)
        = .ok (pySlice (filteredDatums sampleRun "uid-2") 1 (some 1)) :=
  claim_C2_cursor_python_slice sampleCatalog "uid-0" sampleRun ["uid-1"]
    "uid-2" 1 (some 1) rfl

theorem eventCountLoop_eq_length (descriptor_uids : List String) :
    ∀ docs : List Doc,
      eventCountLoop descriptor_uids docs
        = (filteredEvents docs descriptor_uids).length := by
  intro docs
  induction docs with
  | nil => rfl
  | cons d rest ih =>
      cases d with
      | event e =>
          by_cases hc : e.descriptor ∈ descriptor_uids
          · simp [eventCountLoop, filteredEvents, eventSel,
              List.filterMap_cons, hc, ih]
            try omega
          · simp [eventCountLoop, filteredEvents, eventSel,
              List.filterMap_cons, hc, ih]
            try omega
      | start s => simpa [eventCountLoop, filteredEvents, eventSel,
          List.filterMap_cons] using ih
      | descriptor s => simpa [eventCountLoop, filteredEvents, eventSel,
          List.filterMap_cons] using ih
      | resource s => simpa [eventCountLoop, filteredEvents, eventSel,
          List.filterMap_cons] using ih
      | datum s => simpa [eventCountLoop, filteredEvents, eventSel,
          List.filterMap_cons] using ih
      | stop s => simpa [eventCountLoop, filteredEvents, eventSel,
          List.filterMap_cons] using ih

/-- C6: for every run in the index, `get_event_count` returns the length
of the full filtered event sequence — the number of documents
`get_event_cursor` yields with `skip = 0` and no limit — and takes no
skip/limit at all. -/
theorem claim_C6_event_count (c : FilesCatalog) (uid : String)
    (run : List Doc) (descriptor_uids : List String)
    (h : dictGet c.runs uid = some run) :
    c.get_event_count uid descriptor_uids
        = .ok ((filteredEvents run descriptor_uids).length)
      ∧ c.get_event_cursor uid descriptor_uids 0 none
        = .ok (filteredEvents run descriptor_uids) := by
  unfold FilesCatalog.get_event_count FilesCatalog.get_event_cursor
    FilesCatalog.lookupRun
  rw [h]
  constructor
  · exact congrArg Except.ok (eventCountLoop_eq_length descriptor_uids run)
  · have hp := cursorLoop_eq_pySlice (eventSel descriptor_uids) run 0 none
    simp only [pySlice, List.drop_zero] at hp
    exact congrArg Except.ok hp

/-- C6 (witness): the count/cursor agreement on the concrete catalog. -/
theorem claim_C6_witness :
    sampleCatalog.get_event_count "uid-0" ["uid-1"]
        = .ok ((filteredEvents sampleRun ["uid-1"]).length)
      ∧ sampleCatalog.get_event_cursor "uid-0" ["uid-1"] 0 none
        = .ok (filteredEvents sampleRun ["uid-1"]) :=
  claim_C6_event_count sampleCatalog "uid-0" sampleRun ["uid-1"] rfl

/-! ## Referential integrity (claim C5) -/

theorem gdd_event_descriptor (ing : Ingestor) (du ru : String) :
    ∀ (paths : List String) (n : Nat) (e : EventDoc),
      Doc.event e ∈ (getDataDocs ing du ru paths n).1 → e.descriptor = du := by
  intro paths
  induction paths with
  | nil => intro n e h; cases h
  | cons p rest ih =>
      intro n e h
      simp only [getDataDocs, List.mem_cons] at h
      rcases h with h1 | h1 | h1 | h1
      · cases h1
      · cases h1
      · injection h1 with he
        subst he
        rfl
      · exact ih (n + 2) e h1

theorem gdd_datum_decomp (ing : Ingestor) (du ru : String) :
    ∀ (paths : List String) (n : Nat) (dt : DatumDoc),
      Doc.datum dt ∈ (getDataDocs ing du ru paths n).1 →
      ∃ l1 r l2, (getDataDocs ing du ru paths n).1
          = l1 ++ Doc.resource r :: l2
        ∧ Doc.datum dt ∈ l2 ∧ dt.resource = r.uid := by
  intro paths
  induction paths with
  | nil => intro n dt h; cases h
  | cons p rest ih =>
      intro n dt h
      simp only [getDataDocs, List.mem_cons] at h
      rcases h with h1 | h1 | h1 | h1
      · cases h1
      · injection h1 with he
        subst he
        refine ⟨[], _, _, rfl, ?_, rfl⟩
        exact List.mem_cons_self _ _
      · cases h1
      · obtain ⟨l1, r, l2, heq, hm, hres⟩ := ih (n + 2) dt h1
        refine ⟨(getDataDocs ing du ru (p :: rest) n).1.take 3 ++ l1, r, l2,
          ?_, hm, hres⟩
        simp only [getDataDocs, heq, List.take_succ_cons, List.take_zero,
          List.nil_append, List.cons_append, List.append_assoc]

theorem gdd_no_descriptors (ing : Ingestor) (du ru : String) :
    ∀ (paths : List String) (n : Nat),
      descriptorsOf (getDataDocs ing du ru paths n).1 = [] := by
  intro paths
  induction paths with
  | nil => intro n; rfl
  | cons p rest ih =>
      intro n
      simp only [getDataDocs, descriptorsOf, List.filterMap_cons]
      exact ih (n + 2)

theorem getResourceLoop_found :
    ∀ (docs : List Doc) (uid : String) (r : ResourceDoc),
      Doc.resource r ∈ docs → r.uid = uid →
      ∃ r', getResourceLoop docs uid = .ok r' ∧ r'.uid = uid := by
  intro docs
  induction docs with
  | nil => intro uid r h _; cases h
  | cons d rest ih =>
      intro uid r h hr
      rcases List.mem_cons.mp h with heq | hmem
      · subst heq
        exact ⟨r, by simp [getResourceLoop, hr], hr⟩
      · cases d with
        | resource r0 =>
            by_cases h0 : r0.uid = uid
            · exact ⟨r0, by simp [getResourceLoop, h0], h0⟩
            · obtain ⟨r', hr', hu⟩ := ih uid r hmem hr
              exact ⟨r', by simp [getResourceLoop, h0, hr'], hu⟩
        | start s => exact ih uid r hmem hr
        | descriptor s => exact ih uid r hmem hr
        | datum s => exact ih uid r hmem hr
        | event s => exact ih uid r hmem hr
        | stop s => exact ih uid r hmem hr

/-- The per-stream linkage facts: one descriptor, emitted second, that
every event references, and for every datum an earlier resource with the
referenced uid. -/
theorem ingest_linkage (ing : Ingestor) (paths : List String) (n0 : Nat)
    (docs : List Doc) (n1 : Nat)
    (h : ing.ingest paths n0 = .ok (docs, n1)) :
    ∃ s d rest, docs = Doc.start s :: Doc.descriptor d :: rest
      ∧ descriptorsOf docs = [d]
      ∧ (∀ e : EventDoc, Doc.event e ∈ docs →
          e.descriptor = d.uid ∧ Doc.event e ∈ rest)
      ∧ (∀ dt : DatumDoc, Doc.datum dt ∈ docs →
          ∃ l1 r l2, docs = l1 ++ Doc.resource r :: l2
            ∧ Doc.datum dt ∈ l2 ∧ dt.resource = r.uid) := by
  cases paths with
  | nil => cases h
  | cons p0 rest0 =>
      simp only [Ingestor.ingest] at h
      cases hdd : getDescriptorDocs ing p0
          ((getStartDoc ing p0 (p0 :: rest0) n0).1.uid)
          ((getStartDoc ing p0 (p0 :: rest0) n0).2) with
      | error e => rw [hdd] at h; cases h
      | ok dres =>
          rw [hdd] at h
          injection h with h1
          injection h1 with hdocs hn
          subst hdocs
          set sd := getStartDoc ing p0 (p0 :: rest0) n0 with hsd
          set body := getDataDocs ing dres.1.uid sd.1.uid (p0 :: rest0)
            dres.2 with hbody
          set stopd : StopDoc :=
            { uid := uidStr body.2, run_start := sd.1.uid } with hstopd
          refine ⟨sd.1, dres.1, body.1 ++ [Doc.stop stopd], rfl, ?_, ?_, ?_⟩
          · simp only [descriptorsOf, List.filterMap_cons,
              List.filterMap_append]
            have hnone := gdd_no_descriptors ing dres.1.uid sd.1.uid
              (p0 :: rest0) dres.2
            rw [← hbody] at hnone
            simp only [descriptorsOf] at hnone
            rw [hnone]
            rfl
          · intro e he
            simp only [List.mem_cons, List.mem_append,
              List.mem_singleton] at he
            rcases he with h1 | h1 | h1 | h1 | h1
            · cases h1
            · cases h1
            · have hdesc := gdd_event_descriptor ing dres.1.uid sd.1.uid
                (p0 :: rest0) dres.2 e (hbody ▸ h1)
              exact ⟨hdesc, List.mem_append_left _ h1⟩
            · cases h1
            · cases h1
          · intro dt hdt
            simp only [List.mem_cons, List.mem_append,
              List.mem_singleton] at hdt
            rcases hdt with h1 | h1 | h1 | h1 | h1
            · cases h1
            · cases h1
            · obtain ⟨l1, r, l2, heq, hm, hres⟩ := gdd_datum_decomp ing
                dres.1.uid sd.1.uid (p0 :: rest0) dres.2 dt (hbody ▸ h1)
              rw [← hbody] at heq
              refine ⟨Doc.start sd.1 :: Doc.descriptor dres.1 :: l1, r,
                l2 ++ [Doc.stop stopd], ?_,
                List.mem_append_left _ hm, hres⟩
              rw [heq]
              simp [List.cons_append, List.append_assoc]
            · cases h1
            · cases h1

theorem dictGet_mem {α : Type} :
    ∀ (d : List (String × α)) (k : String) (v : α),
      dictGet d k = some v → (k, v) ∈ d := by
  intro d
  induction d with
  | nil => intro k v h; cases h
  | cons kv rest ih =>
      obtain ⟨k0, v0⟩ := kv
      intro k v h
      rw [dictGet] at h
      by_cases h0 : k0 = k
      · rw [if_pos h0] at h
        injection h with hv
        subst h0; subst hv
        exact List.mem_cons_self _ _
      · rw [if_neg h0] at h
        exact List.mem_cons_of_mem _ (ih k v h)

theorem mem_dictSet {α : Type} (d : List (String × α)) (k : String) (v : α)
    (kv : String × α) (h : kv ∈ dictSet d k v) : kv ∈ d ∨ kv = (k, v) := by
  unfold dictSet at h
  split_ifs at h
  · obtain ⟨kv', hmem, heq⟩ := List.mem_map.mp h
    by_cases h0 : kv'.1 = k
    · right
      rw [if_pos h0] at heq
      exact heq.symm
    · left
      rw [if_neg h0] at heq
      exact heq ▸ hmem
  · rcases List.mem_append.mp h with h1 | h1
    · exact Or.inl h1
    · exact Or.inr (List.mem_singleton.mp h1)

theorem mem_foldl_dictSet {α : Type} :
    ∀ (l : List (String × α)) (acc : List (String × α)) (kv : String × α),
      kv ∈ l.foldl (fun d kv => dictSet d kv.1 kv.2) acc →
      kv ∈ acc ∨ kv ∈ l := by
  intro l
  induction l with
  | nil => intro acc kv h; exact Or.inl h
  | cons p rest ih =>
      intro acc kv h
      rcases ih (dictSet acc p.1 p.2) kv h with h1 | h1
      · rcases mem_dictSet acc p.1 p.2 kv h1 with h2 | h2
        · exact Or.inl h2
        · exact Or.inr (h2 ▸ List.mem_cons_self p rest)
      · exact Or.inr (List.mem_cons_of_mem _ h1)

theorem mem_dictOfPairs {α : Type} (l : List (String × α)) (kv : String × α)
    (h : kv ∈ dictOfPairs l) : kv ∈ l := by
  rcases mem_foldl_dictSet l [] kv h with h1 | h1
  · cases h1
  · exact h1

theorem keyRuns_mem :
    ∀ (runs : List (List Doc)) (keyed : List (String × Doc × List Doc)),
      keyRuns runs = .ok keyed →
      ∀ kv ∈ keyed, kv.2.2 ∈ runs := by
  intro runs
  induction runs with
  | nil =>
      intro keyed h kv hkv
      cases h
      cases hkv
  | cons run rest ih =>
      intro keyed h kv hkv
      rw [keyRuns] at h
      split at h
      · cases h
      · split at h
        · cases h
        · split at h
          · cases h
          · rename_i tail ht
            injection h with h1
            subst h1
            rcases List.mem_cons.mp hkv with h2 | h2
            · subst h2
              exact List.mem_cons_self _ _
            · exact List.mem_cons_of_mem _ (ih tail ht kv h2)

theorem ingestAll_mem (ing : Ingestor) :
    ∀ (groups : List (List String)) (n : Nat)
      (res : List (List Doc) × Nat),
      ingestAll ing groups n = .ok res →
      ∀ run ∈ res.1, ∃ g m r2, ing.ingest g m = .ok r2 ∧ r2.1 = run := by
  intro groups
  induction groups with
  | nil =>
      intro n res h run hrun
      injection h with h1
      subst h1
      cases hrun
  | cons g gs ih =>
      intro n res h run hrun
      rw [ingestAll] at h
      split at h
      · cases h
      · rename_i r1 hg
        split at h
        · cases h
        · rename_i rest hrest
          injection h with h1
          subst h1
          rcases List.mem_cons.mp hrun with h2 | h2
          · exact ⟨g, n, r1, hg, h2.symm⟩
          · exact ih r1.2 rest hrest run h2

/-- Runs stored in a built catalog are exactly streams `ingest`
produced. -/
theorem buildCatalog_run_from_ingest (ing : Ingestor)
    (file_list : List String) (q : Option Query) (n0 : Nat)
    (c : FilesCatalog) (n1 : Nat)
    (h : buildCatalog ing file_list q n0 = .ok (c, n1)) :
    ∀ (uid : String) (run : List Doc), dictGet c.runs uid = some run →
      ∃ g m r2, ing.ingest g m = .ok r2 ∧ r2.1 = run := by
  intro uid run hget
  rw [buildCatalog] at h
  split at h
  · cases h
  · rename_i res hall
    split at h
    · cases h
    · rename_i keyed hk
      injection h with h1
      injection h1 with hc hn
      subst hc
      have hmem := dictGet_mem _ _ _ hget
      simp only at hmem
      have hmem2 := mem_dictOfPairs _ _ hmem
      obtain ⟨kv, hkv, heq⟩ := List.mem_map.mp hmem2
      have hrun : run = kv.2.2 := by
        have := congrArg Prod.snd heq
        simpa using this.symm
      subst hrun
      exact ingestAll_mem ing (separateRuns file_list) n0 res hall
        kv.2.2 (keyRuns_mem res.1 keyed hk kv hkv)

/-- C5: in every stream `ingest()` produces, each event's `descriptor`
equals the uid of the descriptor emitted earlier in the same stream, and
each datum's `resource` equals the uid of a resource emitted earlier in
the same stream; hence for every run in a built index, every
`Event.descriptor` resolves through `get_event_descriptors` on that run
and every `Datum.resource` resolves through `get_resource` on that run. -/
theorem claim_C5_referential_integrity :
    (∀ (ing : Ingestor) (paths : List String) (n0 : Nat) (docs : List Doc)
        (n1 : Nat), ing.ingest paths n0 = .ok (docs, n1) →
        ∃ s d rest, docs = Doc.start s :: Doc.descriptor d :: rest
          ∧ (∀ e : EventDoc, Doc.event e ∈ docs →
              e.descriptor = d.uid ∧ Doc.event e ∈ rest)
          ∧ (∀ dt : DatumDoc, Doc.datum dt ∈ docs →
              ∃ l1 r l2, docs = l1 ++ Doc.resource r :: l2
                ∧ Doc.datum dt ∈ l2 ∧ dt.resource = r.uid))
    ∧ (∀ (ing : Ingestor) (file_list : List String) (q : Option Query)
        (n0 : Nat) (c : FilesCatalog) (n1 : Nat),
        buildCatalog ing file_list q n0 = .ok (c, n1) →
        ∀ (uid : String) (run : List Doc), dictGet c.runs uid = some run →
          (∀ e : EventDoc, Doc.event e ∈ run →
            ∃ dl, c.get_event_descriptors uid = .ok dl
              ∧ e.descriptor ∈ dl.map DescriptorDoc.uid)
          ∧ (∀ dt : DatumDoc, Doc.datum dt ∈ run →
            ∃ r, c.get_resource uid dt.resource = .ok r
              ∧ r.uid = dt.resource)) := by
  constructor
  · intro ing paths n0 docs n1 h
    obtain ⟨s, d, rest, hdocs, _, hev, hdat⟩ :=
      ingest_linkage ing paths n0 docs n1 h
    exact ⟨s, d, rest, hdocs, hev, hdat⟩
  · intro ing file_list q n0 c n1 hb uid run hget
    obtain ⟨g, m, r2, hing, hrun⟩ :=
      buildCatalog_run_from_ingest ing file_list q n0 c n1 hb uid run hget
    obtain ⟨s, d, rest, hdocs, hdesc, hev, hdat⟩ :=
      ingest_linkage ing g m r2.1 r2.2 hing
    rw [hrun] at hdocs hdesc hev hdat
    constructor
    · intro e he
      refine ⟨descriptorsOf run, ?_, ?_⟩
      · unfold FilesCatalog.get_event_descriptors FilesCatalog.lookupRun
        rw [hget]
      · rw [hdesc]
        simp [(hev e he).1]
    · intro dt hdt
      obtain ⟨l1, r, l2, heq, hm, hres⟩ := hdat dt hdt
      have hrmem : Doc.resource r ∈ run := by
        rw [heq]
        exact List.mem_append_right _ (List.mem_cons_self _ _)
      obtain ⟨r', hloop, hu⟩ :=
        getResourceLoop_found run dt.resource r hrmem hres.symm
      refine ⟨r', ?_, hu⟩
      unfold FilesCatalog.get_resource FilesCatalog.lookupRun
      rw [hget]
      exact hloop

/-- C5 (witness): on the concrete catalog, the first event's descriptor
reference resolves through `get_event_descriptors`. -/
theorem claim_C5_witness :
    sampleEvent.descriptor ∈ (descriptorsOf sampleRun).map DescriptorDoc.uid := by
  obtain ⟨dl, hdl, hmem⟩ := (claim_C5_referential_integrity.2 sampleIngestor
    ["a_1.tif", "a_2.tif"] none 0 sampleCatalog 7 rfl "uid-0" sampleRun
    rfl).1 sampleEvent (@List.get?_mem _ _ 4 _ rfl)
  have h2 : sampleCatalog.get_event_descriptors "uid-0"
      = .ok (descriptorsOf sampleRun) := rfl
  exact (Except.ok.inj (hdl.symm.trans h2)) ▸ hmem

/-! ## Entry lookup (claim C10) -/

/-- C10: looking up an entry by a key that `int()` accepts (such as
`"-1"`) raises `NotImplementedError` before any lookup; for every other
string key, the lookup returns the entry built from the stored run-start
document for that uid, or fails with `KeyError` carrying the key when the
uid is unknown. -/
theorem claim_C10_entries_getitem (c : FilesCatalog) (name : String) :
    ((pyIntParse name).isSome = true →
        entriesGetitem c name = .error .notImplementedError)
      ∧ (pyIntParse name = none → dictGet c.run_starts name = none →
          entriesGetitem c name = .error (.keyError name))
      ∧ (pyIntParse name = none →
          ∀ d : Doc, dictGet c.run_starts name = some d →
            entriesGetitem c name = docsToEntry c d)
      ∧ pyIntParse "-1" = some (-1) := by
  refine ⟨?_, ?_, ?_, by decide⟩
  · intro h
    obtain ⟨k, hk⟩ := Option.isSome_iff_exists.mp h
    simp only [entriesGetitem, hk]
  · intro h1 h2
    simp only [entriesGetitem, h1, h2]
  · intro h1 d h2
    simp only [entriesGetitem, h1, h2]

/-- C10 (witness): the lookup theorem on the concrete catalog, for the
integer-ish key `"-1"` and the unknown key `"nope"`. -/
theorem claim_C10_witness :
    entriesGetitem sampleCatalog "-1" = .error .notImplementedError
      ∧ entriesGetitem sampleCatalog "nope" = .error (.keyError "nope") :=
  ⟨(claim_C10_entries_getitem sampleCatalog "-1").1 (by decide),
   (claim_C10_entries_getitem sampleCatalog "nope").2.1 (by decide) rfl⟩

/-- C3 (code bug): `search` always raises `TypeError` instead of
returning a new scoped catalog — the constructor call inside it supplies
only keyword arguments (`jsonl_filelist`, …) and omits the required
positional parameters `file_list` and `handler` of
`FilesCatalog.__init__`; this contradicts `search`'s own docstring
("Return a new Catalog with a subset of the entries in this Catalog"). -/
theorem claim_C3_search_raises_type_error (c : FilesCatalog) (q : Query) :
    c.search q = .error (.typeError
      "__init__() missing 2 required positional arguments: \x27file_list\x27 and \x27handler\x27") :=
  rfl

end IntakeBlueskyFiles
